import Mathlib

/-!
Formal model of the deterministic core of the blind-maze mini-game
(`src/index.tsx`): maze-solution generation, attempt evaluation, the
round clock, the storage accessors, the leaderboard update and the
attempt-metering flow, together with theorems checking the
specification's claims against this model.

Numbers of the source language are modelled as exact integers,
rationals and reals; the integer operators keep their source-level
semantics (`%` is the truncating remainder, `Math.floor` is the real
floor, `Math.round` is floor of the argument plus one half, and an
out-of-range array read yields `none`, which compares unequal to any
present entry).
-/

namespace BlindMaze

/-! ### Configuration constants (the CONFIG object of the source) -/

def ATTEMPT_COST : ℚ := 0.1

def MAZE_DURATION_HOURS : ℕ := 12

def STEPS_PER_ATTEMPT : ℕ := 25

def ATTEMPTS_PER_MAZE : ℕ := 5

noncomputable def CURVE_EXPONENT : ℝ := 3.5

/-! ### Maze generation (`generateMazeSolution`) -/

/-- One update of the generator state:
`rng = (rng * 1103515245 + 12345) % 2147483648`, with the truncating
remainder of the source language. -/
def lcgStep (rng : ℤ) : ℤ := (rng * 1103515245 + 12345).tmod 2147483648

/-- The choice pushed for a state: `Math.floor(lcg() * 3)` where `lcg()`
returned `rng / 2147483648`; the floor of `rng * 3 / 2147483648`. -/
def lcgChoice (rng : ℤ) : ℤ := (rng * 3).fdiv 2147483648

/-- The generation loop: `n` more iterations, each advancing the state
and pushing one choice. -/
def genLoop : ℤ → ℕ → List ℤ
  | _, 0 => []
  | rng, n + 1 =>
    let next := lcgStep rng
    lcgChoice next :: genLoop next n

def generateMazeSolution (seed : ℤ) : List ℤ := genLoop seed STEPS_PER_ATTEMPT

/-! ### The reference recurrence of the specification -/

/-- One step of the reference recurrence, on naturals. -/
def lcgNext (r : ℕ) : ℕ := (r * 1103515245 + 12345) % 2147483648

/-- Reference recurrence of the specification:
`state 0 = seed`, `state (i+1) = (state i * 1103515245 + 12345) mod 2^31`. -/
def lcgState (seed : ℕ) : ℕ → ℕ
  | 0 => seed
  | n + 1 => lcgNext (lcgState seed n)

/-- The choice sequence of the reference recurrence:
choice `i` is `floor (state (i+1) / 2^31 * 3)`. -/
def referenceSolution (seed : ℕ) : List ℕ :=
  (List.range STEPS_PER_ATTEMPT).map fun i => lcgState seed (i + 1) * 3 / 2147483648

/-! ### Attempt evaluation (`evaluateAttempt`)

The two counting loops run over the fixed index range `0 ≤ i < 25`;
position `i` of a list is `none` when the list is shorter, and the
comparison of the two positions is the comparison of those optional
values, exactly as the source compares possibly-absent array entries. -/

/-- The consecutive-match loop: starting from the front, count positions
while `playerMoves[i] === solution[i]`, stopping at the first mismatch;
`n` iterations remain. -/
def cmAux : ℕ → List ℕ → List ℕ → ℕ
  | 0, _, _ => 0
  | n + 1, a, s => if a.head? == s.head? then cmAux n a.tail s.tail + 1 else 0

/-- The total-match loop: count all positions `i` with
`playerMoves[i] === solution[i]`; `n` iterations remain. -/
def tmAux : ℕ → List ℕ → List ℕ → ℕ
  | 0, _, _ => 0
  | n + 1, a, s => (if a.head? == s.head? then 1 else 0) + tmAux n a.tail s.tail

def consecutiveMatches (playerMoves solution : List ℕ) : ℕ :=
  cmAux STEPS_PER_ATTEMPT playerMoves solution

def totalMatches (playerMoves solution : List ℕ) : ℕ :=
  tmAux STEPS_PER_ATTEMPT playerMoves solution

/-- `consecutiveRatio * 0.7 + totalRatio * 0.3` of the source. -/
noncomputable def baseScore (consecutive total : ℕ) : ℝ :=
  (consecutive : ℝ) / (STEPS_PER_ATTEMPT : ℝ) * 0.7 +
    (total : ℝ) / (STEPS_PER_ATTEMPT : ℝ) * 0.3

/-- `Math.pow(baseScore, CONFIG.CURVE_EXPONENT) * 100`. -/
noncomputable def curvedScore (consecutive total : ℕ) : ℝ :=
  baseScore consecutive total ^ CURVE_EXPONENT * 100

/-- The near-perfect bonus
`(totalMatches - 25 * 0.9) / (25 * 0.1) * 5` of the source. -/
noncomputable def bonusTerm (total : ℕ) : ℝ :=
  ((total : ℝ) - (STEPS_PER_ATTEMPT : ℝ) * 0.9) / ((STEPS_PER_ATTEMPT : ℝ) * 0.1) * 5

/-- The branching on `totalMatches` of the source: exactly 100 for a
perfect total, the capped bonus branch from 90% of the steps up, and the
curved score otherwise. -/
noncomputable def finalScore (consecutive total : ℕ) : ℝ :=
  if total = STEPS_PER_ATTEMPT then 100
  else if (STEPS_PER_ATTEMPT : ℝ) * 0.9 ≤ (total : ℝ) then
    min 99.9 (curvedScore consecutive total + bonusTerm total)
  else curvedScore consecutive total

/-- `Math.round`: the nearest integer, halves rounding up. -/
noncomputable def jsRound (x : ℝ) : ℤ := ⌊x + 1 / 2⌋

/-- The score produced for given match counts:
`Math.round(finalScore * 10) / 10`. -/
noncomputable def scoreFrom (consecutive total : ℕ) : ℚ :=
  (jsRound (finalScore consecutive total * 10) : ℚ) / 10

noncomputable def evaluateAttempt (playerMoves solution : List ℕ) : ℚ :=
  scoreFrom (consecutiveMatches playerMoves solution) (totalMatches playerMoves solution)

/-! ### The specification's reference evaluation formula -/

/-- Length of the longest prefix on which the two sequences agree
position by position, stopping at the first mismatch, as the
specification words it. -/
def refConsecutive : List ℕ → List ℕ → ℕ
  | x :: xs, y :: ys => if x = y then refConsecutive xs ys + 1 else 0
  | _, _ => 0

/-- Count of all matching positions, as the specification words it. -/
def refTotal (attempt solution : List ℕ) : ℕ :=
  ((attempt.zip solution).filter fun p => p.1 == p.2).length

/-- The specification's scoring formula, written from its words:
`baseScore = (cm/25)*0.7 + (tm/25)*0.3`, `curved = baseScore^3.5 * 100`,
result `100` if `tm = 25`, else `min(99.9, curved + ((tm-22.5)/2.5)*5)`
if `tm ≥ 22.5`, else `curved`; rounded to one decimal place. -/
noncomputable def refScore (attempt solution : List ℕ) : ℚ :=
  let cm : ℝ := refConsecutive attempt solution
  let tm : ℝ := refTotal attempt solution
  let base : ℝ := cm / 25 * 0.7 + tm / 25 * 0.3
  let curved : ℝ := base ^ (3.5 : ℝ) * 100
  let final : ℝ :=
    if refTotal attempt solution = 25 then 100
    else if 22.5 ≤ tm then min 99.9 (curved + (tm - 22.5) / 2.5 * 5)
    else curved
  (⌊final * 10 + 1 / 2⌋ : ℤ) / 10

/-! ### Round clock (`getCurrentMazeSeed`) -/

/-- The round seed for a wall-clock reading `now` (milliseconds since
epoch): `Math.floor(now / (MAZE_DURATION_HOURS * 60 * 60 * 1000))`. -/
def getCurrentMazeSeed (now : ℕ) : ℕ := now / (MAZE_DURATION_HOURS * 60 * 60 * 1000)

/-! ### Storage accessors (`getPlayerData`, `getLeaderboard`) -/

structure PlayerRecord where
  attemptsUsed : ℕ
  bestScore : ℚ
deriving DecidableEq

def defaultPlayerRecord : PlayerRecord := { attemptsUsed := 0, bestScore := 0 }

/-- Outcome of a `window.storage.get` call: the call threw, the key held
no value, or a raw serialized string was returned. -/
inductive StoreGet where
  | failed : StoreGet
  | absent : StoreGet
  | found : String → StoreGet
deriving DecidableEq

/-- `getPlayerData`: deserialize the fetched value, falling back to the
zero record when the store call failed, the key was absent, or the
payload does not decode (`JSON.parse` threw); `decode` abstracts the
deserializer, `none` being a decoding failure. -/
def getPlayerData (res : StoreGet) (decode : String → Option PlayerRecord) : PlayerRecord :=
  match res with
  | .found raw =>
    match decode raw with
    | some r => r
    | none => defaultPlayerRecord
  | _ => defaultPlayerRecord

structure LBEntry where
  name : String
  score : ℚ
deriving DecidableEq

/-- `getLeaderboard`: as `getPlayerData`, with the empty list as the
fallback. -/
def getLeaderboard (res : StoreGet) (decode : String → Option (List LBEntry)) : List LBEntry :=
  match res with
  | .found raw =>
    match decode raw with
    | some lb => lb
    | none => []
  | _ => []

/-! ### Leaderboard update (`updateLeaderboard`)

The source loads the stored list, updates the first entry of the player
(to the maximum of old and new score) or appends a fresh entry, sorts by
score descending and keeps the top 100. -/

/-- Replace the first entry named `nm` by the same entry with score
`max old new`, as the in-place mutation of the found entry does. -/
def lbBump : List LBEntry → String → ℚ → List LBEntry
  | [], _, _ => []
  | e :: rest, nm, sc =>
    if e.name == nm then { name := e.name, score := max e.score sc } :: rest
    else e :: lbBump rest nm sc

/-- Update-or-append step of `updateLeaderboard`. -/
def lbApply (lb : List LBEntry) (playerName : String) (score : ℚ) : List LBEntry :=
  match lb.find? fun p => p.name == playerName with
  | some _ => lbBump lb playerName score
  | none => lb ++ [{ name := playerName, score := score }]

/-- Descending order on entries: the comparator `(a, b) => b.score - a.score`. -/
def lbRel (a b : LBEntry) : Prop := b.score ≤ a.score

instance : DecidableRel lbRel := fun a b => inferInstanceAs (Decidable (b.score ≤ a.score))

instance : IsTotal LBEntry lbRel := ⟨fun a b => le_total b.score a.score⟩

instance : IsTrans LBEntry lbRel := ⟨fun _ _ _ h h' => le_trans h' h⟩

/-- The pure content of `updateLeaderboard` on the loaded list:
update or add the player, sort by score descending, keep the top 100. -/
def updateLeaderboard (lb : List LBEntry) (playerName : String) (score : ℚ) : List LBEntry :=
  ((lbApply lb playerName score).insertionSort lbRel).take 100

/-! ### The attempt flow (`startAttempt` / `finishAttempt`)

One completed attempt is a successful `startAttempt` (balance check,
attempts-cap check, deduction) followed by `finishAttempt` on the
resulting score; a rejected start leaves the state unchanged. The
`finalized` field is the history of scores of finished attempts. -/

structure GameState where
  attemptsUsed : ℕ
  bestScore : ℚ
  balance : ℚ
  finalized : List ℚ
deriving DecidableEq

/-- Initial in-memory state: the zero player record and the mock SDK's
starting balance of 5.0. -/
def initialState : GameState :=
  { attemptsUsed := 0, bestScore := 0, balance := 5, finalized := [] }

/-- One attempt at a given score: refused when the balance is below the
cost or the attempt cap is reached; otherwise the cost is deducted,
`attemptsUsed` is incremented and `bestScore` becomes
`Math.max(bestScore, score)`. -/
def playAttempt (s : GameState) (score : ℚ) : GameState :=
  if s.balance < ATTEMPT_COST then s
  else if ATTEMPTS_PER_MAZE ≤ s.attemptsUsed then s
  else
    { attemptsUsed := s.attemptsUsed + 1,
      bestScore := max s.bestScore score,
      balance := s.balance - ATTEMPT_COST,
      finalized := s.finalized ++ [score] }

/-- Run a sequence of attempts from a state. -/
def runGame : GameState → List ℚ → GameState
  | s, [] => s
  | s, x :: xs => runGame (playAttempt s x) xs

/-! ### Bridging lemmas for the generator -/

theorem tmod_natCast (m n : ℕ) : Int.tmod (m : ℤ) (n : ℤ) = ((m % n : ℕ) : ℤ) := rfl

theorem fdiv_natCast (m n : ℕ) : Int.fdiv (m : ℤ) (n : ℤ) = ((m / n : ℕ) : ℤ) := by
  cases m with
  | zero => simp [Int.fdiv]
  | succ k => rfl

theorem lcgStep_natCast (r : ℕ) : lcgStep (r : ℤ) = (lcgNext r : ℤ) := by
  unfold lcgStep lcgNext
  have h : ((r : ℤ) * 1103515245 + 12345) = ((r * 1103515245 + 12345 : ℕ) : ℤ) := by
    push_cast; ring
  rw [h, show ((2147483648 : ℤ)) = ((2147483648 : ℕ) : ℤ) by norm_num, tmod_natCast]

theorem lcgChoice_natCast (r : ℕ) : lcgChoice (r : ℤ) = ((r * 3 / 2147483648 : ℕ) : ℤ) := by
  unfold lcgChoice
  have h : ((r : ℤ) * 3) = ((r * 3 : ℕ) : ℤ) := by push_cast; ring
  rw [h, show ((2147483648 : ℤ)) = ((2147483648 : ℕ) : ℤ) by norm_num, fdiv_natCast]

theorem lcgState_shift (seed : ℕ) : ∀ n, lcgState seed (n + 1) = lcgState (lcgNext seed) n := by
  intro n
  induction n with
  | zero => simp [lcgState]
  | succ m ih =>
    show lcgNext (lcgState seed (m + 1)) = lcgNext (lcgState (lcgNext seed) m)
    rw [ih]

theorem genLoop_eq_reference (n : ℕ) :
    ∀ r : ℕ, genLoop (r : ℤ) n =
      (List.range n).map fun i => ((lcgState r (i + 1) * 3 / 2147483648 : ℕ) : ℤ) := by
  induction n with
  | zero => intro r; rfl
  | succ m ih =>
    intro r
    rw [List.range_succ_eq_map, List.map_cons, List.map_map]
    show lcgChoice (lcgStep (r : ℤ)) :: genLoop (lcgStep (r : ℤ)) m = _
    rw [lcgStep_natCast, lcgChoice_natCast]
    refine congrArg₂ List.cons ?_ ?_
    · simp [lcgState]
    · refine (ih (lcgNext r)).trans (List.map_congr_left ?_)
      intro i _
      simp only [Function.comp_apply]
      rw [← lcgState_shift r (i + 1)]

theorem lcgState_lt (seed n : ℕ) (h : n ≠ 0) : lcgState seed n < 2147483648 := by
  cases n with
  | zero => exact absurd rfl h
  | succ m => exact Nat.mod_lt _ (by norm_num)

/-! ### Claim C1 -/

/-- C1 (amended to nonnegative seeds): for every integer seed with
`0 ≤ seed`, `generateMazeSolution seed` is exactly the choice sequence
of the specification's linear-congruential reference recurrence
`state 0 = seed`, `state (i+1) = (state i * 1103515245 + 12345) mod 2^31`,
`choice i = floor (state (i+1) / 2^31 * 3)`; it has exactly
`STEPS_PER_ATTEMPT = 25` entries, each in `{0, 1, 2}`; being a pure
function of the seed, two evaluations at the same seed coincide. -/
theorem claim1_generator_matches_reference (seed : ℤ) (hseed : 0 ≤ seed) :
    generateMazeSolution seed = (referenceSolution seed.toNat).map (Nat.cast : ℕ → ℤ) ∧
    (generateMazeSolution seed).length = STEPS_PER_ATTEMPT ∧
    generateMazeSolution seed ⊆ [0, 1, 2] := by
  have hcast : ((seed.toNat : ℕ) : ℤ) = seed := Int.toNat_of_nonneg hseed
  have hmain : generateMazeSolution seed =
      (referenceSolution seed.toNat).map (Nat.cast : ℕ → ℤ) := by
    rw [← hcast]
    show genLoop ((seed.toNat : ℕ) : ℤ) STEPS_PER_ATTEMPT = _
    rw [genLoop_eq_reference, referenceSolution, List.map_map]
    rfl
  refine ⟨hmain, ?_, ?_⟩
  · rw [hmain]; simp [referenceSolution]
  · rw [hmain]
    intro c hc
    simp only [referenceSolution, List.mem_map, List.mem_range] at hc
    obtain ⟨x, ⟨i, _, rfl⟩, rfl⟩ := hc
    have hlt : lcgState seed.toNat (i + 1) < 2147483648 :=
      lcgState_lt _ _ (Nat.succ_ne_zero i)
    have h3 : lcgState seed.toNat (i + 1) * 3 / 2147483648 < 3 := by
      apply Nat.div_lt_of_lt_mul
      omega
    have hcase : lcgState seed.toNat (i + 1) * 3 / 2147483648 = 0 ∨
        lcgState seed.toNat (i + 1) * 3 / 2147483648 = 1 ∨
        lcgState seed.toNat (i + 1) * 3 / 2147483648 = 2 := by omega
    rcases hcase with h | h | h <;> simp [h]

/-- Witness for C1 at seed 0. -/
theorem claim1_generator_matches_reference_witness :
    generateMazeSolution 0 = (referenceSolution (Int.toNat 0)).map (Nat.cast : ℕ → ℤ) ∧
    (generateMazeSolution 0).length = STEPS_PER_ATTEMPT ∧
    generateMazeSolution 0 ⊆ [0, 1, 2] :=
  claim1_generator_matches_reference 0 (by norm_num)

/-- C1 counterexample: at the integer seed `-1` the produced sequence
leaves the `{0, 1, 2}` alphabet (its first choice is `-2`, because the
truncating remainder keeps the state negative), so the claim quantified
over every integer seed fails. -/
theorem claim1_counterexample : ¬ generateMazeSolution (-1) ⊆ [0, 1, 2] := by
  intro h
  have h2 : (-2 : ℤ) ∈ generateMazeSolution (-1) := by decide
  have h3 : (-2 : ℤ) ∈ ([0, 1, 2] : List ℤ) := h h2
  exact absurd h3 (by decide)

/-! ### Claim C7 -/

/-- C7: the round clock computes `RoundSeed = floor(now / round_ms)`
with `round_ms = MAZE_DURATION_HOURS * 3600000`; two timestamps of the
same duration window get the same seed, and a timestamp of the
immediately following window gets a strictly greater seed. -/
theorem claim7_round_clock (t1 t2 t3 w : ℕ)
    (h1l : w * (MAZE_DURATION_HOURS * 3600000) ≤ t1)
    (h1r : t1 < (w + 1) * (MAZE_DURATION_HOURS * 3600000))
    (h2l : w * (MAZE_DURATION_HOURS * 3600000) ≤ t2)
    (h2r : t2 < (w + 1) * (MAZE_DURATION_HOURS * 3600000))
    (h3l : (w + 1) * (MAZE_DURATION_HOURS * 3600000) ≤ t3)
    (h3r : t3 < (w + 2) * (MAZE_DURATION_HOURS * 3600000)) :
    getCurrentMazeSeed t1 = t1 / (MAZE_DURATION_HOURS * 3600000) ∧
    getCurrentMazeSeed t1 = getCurrentMazeSeed t2 ∧
    getCurrentMazeSeed t1 < getCurrentMazeSeed t3 := by
  have hdur : MAZE_DURATION_HOURS * 60 * 60 * 1000 = MAZE_DURATION_HOURS * 3600000 := by
    simp [MAZE_DURATION_HOURS]
  have hseed : ∀ t k, k * (MAZE_DURATION_HOURS * 3600000) ≤ t →
      t < (k + 1) * (MAZE_DURATION_HOURS * 3600000) → getCurrentMazeSeed t = k := by
    intro t k hk hk'
    unfold getCurrentMazeSeed
    rw [hdur]
    exact Nat.div_eq_of_lt_le hk hk'
  have e1 : getCurrentMazeSeed t1 = w := hseed t1 w h1l h1r
  have e2 : getCurrentMazeSeed t2 = w := hseed t2 w h2l h2r
  have e3 : getCurrentMazeSeed t3 = w + 1 := hseed t3 (w + 1) h3l h3r
  refine ⟨?_, ?_, ?_⟩
  · unfold getCurrentMazeSeed; rw [hdur]
  · rw [e1, e2]
  · rw [e1, e3]; omega

/-- Witness for C7: the window `w = 0` with timestamps 0 and 43199999,
and 43200000 in the following window. -/
theorem claim7_round_clock_witness :
    getCurrentMazeSeed 0 = 0 / (MAZE_DURATION_HOURS * 3600000) ∧
    getCurrentMazeSeed 0 = getCurrentMazeSeed 43199999 ∧
    getCurrentMazeSeed 0 < getCurrentMazeSeed 43200000 :=
  claim7_round_clock 0 43199999 43200000 0 (by norm_num [MAZE_DURATION_HOURS])
    (by norm_num [MAZE_DURATION_HOURS]) (by norm_num [MAZE_DURATION_HOURS])
    (by norm_num [MAZE_DURATION_HOURS]) (by norm_num [MAZE_DURATION_HOURS])
    (by norm_num [MAZE_DURATION_HOURS])

/-! ### Claim C8 -/

/-- C8: when the store has no value for the key, the store call fails,
or the stored payload does not deserialize, `getPlayerData` returns the
zero default record and `getLeaderboard` returns the empty list; no
error propagates and no partial state is returned. -/
theorem claim8_storage_defaults (res : StoreGet)
    (dp : String → Option PlayerRecord) (dl : String → Option (List LBEntry))
    (raw : String)
    (h : res = StoreGet.failed ∨ res = StoreGet.absent ∨
      (res = StoreGet.found raw ∧ dp raw = none ∧ dl raw = none)) :
    getPlayerData res dp = { attemptsUsed := 0, bestScore := 0 } ∧
    getLeaderboard res dl = [] := by
  rcases h with h | h | ⟨h, hp, hl⟩ <;> subst h
  · exact ⟨rfl, rfl⟩
  · exact ⟨rfl, rfl⟩
  · constructor
    · simp [getPlayerData, hp, defaultPlayerRecord]
    · simp [getLeaderboard, hl]

/-- Witness for C8: a failed store fetch. -/
theorem claim8_storage_defaults_witness :
    getPlayerData StoreGet.failed (fun _ => none) = { attemptsUsed := 0, bestScore := 0 } ∧
    getLeaderboard StoreGet.failed (fun _ => none) = [] :=
  claim8_storage_defaults StoreGet.failed (fun _ => none) (fun _ => none) ""
    (Or.inl rfl)

/-! ### Claim C9 -/

theorem foldr_max_append (l : List ℚ) (x : ℚ) :
    (l ++ [x]).foldr max 0 = max (l.foldr max 0) x := by
  induction l with
  | nil => simp [List.foldr]; exact max_comm x 0
  | cons h t ih => simp only [List.cons_append, List.foldr_cons, ih, max_assoc]

theorem playAttempt_at_cap (s : GameState) (x : ℚ)
    (h : ATTEMPTS_PER_MAZE ≤ s.attemptsUsed) : playAttempt s x = s := by
  unfold playAttempt
  rw [if_pos h]
  split <;> rfl

theorem playAttempt_preserves (s : GameState) (x : ℚ)
    (h1 : s.attemptsUsed ≤ ATTEMPTS_PER_MAZE)
    (h2 : s.bestScore = s.finalized.foldr max 0) :
    (playAttempt s x).attemptsUsed ≤ ATTEMPTS_PER_MAZE ∧
    (playAttempt s x).bestScore = (playAttempt s x).finalized.foldr max 0 := by
  unfold playAttempt
  split
  · exact ⟨h1, h2⟩
  · split
    · exact ⟨h1, h2⟩
    · rename_i hcap
      constructor
      · show s.attemptsUsed + 1 ≤ ATTEMPTS_PER_MAZE
        omega
      · show max s.bestScore x = (s.finalized ++ [x]).foldr max 0
        rw [foldr_max_append, ← h2]

theorem runGame_preserves (xs : List ℚ) : ∀ s : GameState,
    s.attemptsUsed ≤ ATTEMPTS_PER_MAZE → s.bestScore = s.finalized.foldr max 0 →
    (runGame s xs).attemptsUsed ≤ ATTEMPTS_PER_MAZE ∧
    (runGame s xs).bestScore = (runGame s xs).finalized.foldr max 0 := by
  induction xs with
  | nil => intro s h1 h2; exact ⟨h1, h2⟩
  | cons x xs ih =>
    intro s h1 h2
    obtain ⟨g1, g2⟩ := playAttempt_preserves s x h1 h2
    exact ih (playAttempt s x) g1 g2

theorem runGame_bestScore_mono (xs : List ℚ) : ∀ s : GameState,
    s.bestScore ≤ (runGame s xs).bestScore := by
  induction xs with
  | nil => intro s; exact le_refl _
  | cons x xs ih =>
    intro s
    refine le_trans ?_ (ih (playAttempt s x))
    unfold playAttempt
    split
    · exact le_refl _
    · split
      · exact le_refl _
      · exact le_max_left _ _

/-- C9: along the game flow (a successful start followed by a finish,
repeated), every reachable player record keeps
`attemptsUsed ≤ ATTEMPTS_PER_MAZE = 5`; a start at the cap is refused
and changes nothing; `bestScore` never decreases, and always equals the
maximum (fold of `max` over zero) of the finalized attempt scores. -/
theorem claim9_attempt_flow (scores xs : List ℚ) (s t : GameState) (x : ℚ)
    (hcap : ATTEMPTS_PER_MAZE ≤ s.attemptsUsed) :
    (runGame initialState scores).attemptsUsed ≤ ATTEMPTS_PER_MAZE ∧
    (runGame initialState scores).bestScore
      = (runGame initialState scores).finalized.foldr max 0 ∧
    playAttempt s x = s ∧
    t.bestScore ≤ (runGame t xs).bestScore := by
  obtain ⟨g1, g2⟩ := runGame_preserves scores initialState
    (by simp [initialState, ATTEMPTS_PER_MAZE]) (by simp [initialState])
  exact ⟨g1, g2, playAttempt_at_cap s x hcap, runGame_bestScore_mono xs t⟩

/-- Witness for C9: six submissions against the initial state (the sixth
is refused at the cap), a refused start at a state with five used
attempts, and monotonicity across one further attempt. -/
theorem claim9_attempt_flow_witness :
    (runGame initialState [50, 30, 80, 10, 99, 1]).attemptsUsed ≤ ATTEMPTS_PER_MAZE ∧
    (runGame initialState [50, 30, 80, 10, 99, 1]).bestScore
      = (runGame initialState [50, 30, 80, 10, 99, 1]).finalized.foldr max 0 ∧
    playAttempt { attemptsUsed := 5, bestScore := 0, balance := 5, finalized := [] } 7
      = { attemptsUsed := 5, bestScore := 0, balance := 5, finalized := [] } ∧
    initialState.bestScore ≤ (runGame initialState [42]).bestScore :=
  claim9_attempt_flow [50, 30, 80, 10, 99, 1] [42]
    { attemptsUsed := 5, bestScore := 0, balance := 5, finalized := [] } initialState 7
    (by decide)

/-! ### Helper lemmas for the evaluator -/

theorem cmAux_le (n : ℕ) : ∀ a s, cmAux n a s ≤ n := by
  induction n with
  | zero => intro a s; simp [cmAux]
  | succ m ih =>
    intro a s
    unfold cmAux
    split
    · exact Nat.succ_le_succ (ih _ _)
    · exact Nat.zero_le _

theorem tmAux_le (n : ℕ) : ∀ a s, tmAux n a s ≤ n := by
  induction n with
  | zero => intro a s; simp [tmAux]
  | succ m ih =>
    intro a s
    unfold tmAux
    have := ih a.tail s.tail
    split <;> omega

theorem consecutiveMatches_le (a s : List ℕ) : consecutiveMatches a s ≤ 25 :=
  cmAux_le STEPS_PER_ATTEMPT a s

theorem totalMatches_le (a s : List ℕ) : totalMatches a s ≤ 25 :=
  tmAux_le STEPS_PER_ATTEMPT a s

theorem steps_cast_real : ((STEPS_PER_ATTEMPT : ℕ) : ℝ) = 25 := by
  norm_num [STEPS_PER_ATTEMPT]

theorem baseScore_nonneg (c t : ℕ) : 0 ≤ baseScore c t := by
  unfold baseScore
  positivity

theorem baseScore_le_one (c t : ℕ) (hc : c ≤ 25) (ht : t ≤ 25) : baseScore c t ≤ 1 := by
  unfold baseScore
  rw [steps_cast_real]
  have hc' : (c : ℝ) ≤ 25 := by exact_mod_cast hc
  have ht' : (t : ℝ) ≤ 25 := by exact_mod_cast ht
  linarith

theorem baseScore_mono (c₁ c₂ t₁ t₂ : ℕ) (hc : c₁ ≤ c₂) (ht : t₁ ≤ t₂) :
    baseScore c₁ t₁ ≤ baseScore c₂ t₂ := by
  unfold baseScore
  have hc' : (c₁ : ℝ) ≤ (c₂ : ℝ) := by exact_mod_cast hc
  have ht' : (t₁ : ℝ) ≤ (t₂ : ℝ) := by exact_mod_cast ht
  rw [steps_cast_real]
  linarith

theorem curve_exponent_pos : (0 : ℝ) < CURVE_EXPONENT := by norm_num [CURVE_EXPONENT]

theorem curvedScore_nonneg (c t : ℕ) : 0 ≤ curvedScore c t := by
  unfold curvedScore
  have h := Real.rpow_nonneg (baseScore_nonneg c t) CURVE_EXPONENT
  linarith

theorem curvedScore_le_100 (c t : ℕ) (hc : c ≤ 25) (ht : t ≤ 25) : curvedScore c t ≤ 100 := by
  unfold curvedScore
  have h1 : baseScore c t ^ CURVE_EXPONENT ≤ 1 :=
    Real.rpow_le_one (baseScore_nonneg c t) (baseScore_le_one c t hc ht)
      curve_exponent_pos.le
  linarith

theorem curvedScore_le_base (c t : ℕ) (hc : c ≤ 25) (ht : t ≤ 25) :
    curvedScore c t ≤ baseScore c t * 100 := by
  unfold curvedScore
  have hb0 := baseScore_nonneg c t
  have hb1 := baseScore_le_one c t hc ht
  rcases eq_or_lt_of_le hb0 with h | h
  · rw [← h, Real.zero_rpow (ne_of_gt curve_exponent_pos)]
  · have h2 : baseScore c t ^ CURVE_EXPONENT ≤ baseScore c t ^ (1 : ℝ) :=
      Real.rpow_le_rpow_of_exponent_ge h hb1 (by norm_num [CURVE_EXPONENT])
    rw [Real.rpow_one] at h2
    linarith

theorem curvedScore_mono (c₁ c₂ t₁ t₂ : ℕ) (hc : c₁ ≤ c₂) (ht : t₁ ≤ t₂) :
    curvedScore c₁ t₁ ≤ curvedScore c₂ t₂ := by
  unfold curvedScore
  have h := Real.rpow_le_rpow (baseScore_nonneg c₁ t₁)
    (baseScore_mono c₁ c₂ t₁ t₂ hc ht) curve_exponent_pos.le
  linarith

theorem curvedScore_le_999 (c t : ℕ) (hc : c ≤ 25) (ht : t ≤ 22) :
    curvedScore c t ≤ 99.9 := by
  have hb : baseScore c t ≤ 0.964 := by
    unfold baseScore
    rw [steps_cast_real]
    have hc' : (c : ℝ) ≤ 25 := by exact_mod_cast hc
    have ht' : (t : ℝ) ≤ 22 := by exact_mod_cast ht
    linarith
  have h2 := curvedScore_le_base c t hc (by omega)
  linarith

theorem le22_of_not_bonus {t : ℕ} (h : ¬((STEPS_PER_ATTEMPT : ℝ) * 0.9 ≤ (t : ℝ))) :
    t ≤ 22 := by
  by_contra hgt
  push_neg at hgt
  apply h
  have h23 : (23 : ℝ) ≤ (t : ℝ) := by exact_mod_cast hgt
  rw [steps_cast_real]
  linarith

theorem bonusTerm_nonneg {t : ℕ} (h : (STEPS_PER_ATTEMPT : ℝ) * 0.9 ≤ (t : ℝ)) :
    0 ≤ bonusTerm t := by
  unfold bonusTerm
  have hnum : (0 : ℝ) ≤ (t : ℝ) - (STEPS_PER_ATTEMPT : ℝ) * 0.9 := by linarith
  have hden : (0 : ℝ) < (STEPS_PER_ATTEMPT : ℝ) * 0.1 := by
    rw [steps_cast_real]; norm_num
  exact mul_nonneg (div_nonneg hnum hden.le) (by norm_num)

theorem bonusTerm_mono {t₁ t₂ : ℕ} (h : t₁ ≤ t₂) : bonusTerm t₁ ≤ bonusTerm t₂ := by
  unfold bonusTerm
  have hcast : (t₁ : ℝ) ≤ (t₂ : ℝ) := by exact_mod_cast h
  have hden : (0 : ℝ) < (STEPS_PER_ATTEMPT : ℝ) * 0.1 := by
    rw [steps_cast_real]; norm_num
  apply mul_le_mul_of_nonneg_right _ (by norm_num : (0 : ℝ) ≤ 5)
  exact (div_le_div_iff_of_pos_right hden).mpr (by linarith)

theorem finalScore_nonneg (c t : ℕ) : 0 ≤ finalScore c t := by
  unfold finalScore
  split
  · norm_num
  · split
    · rename_i htm
      refine le_min (by norm_num) ?_
      have h1 := curvedScore_nonneg c t
      have h2 := bonusTerm_nonneg htm
      linarith
    · exact curvedScore_nonneg c t

theorem finalScore_le_100 (c t : ℕ) (hc : c ≤ 25) (ht : t ≤ 25) :
    finalScore c t ≤ 100 := by
  unfold finalScore
  split
  · exact le_refl _
  · split
    · exact le_trans (min_le_left _ _) (by norm_num)
    · linarith [curvedScore_le_100 c t hc ht]

theorem finalScore_le_999 (c t : ℕ) (hc : c ≤ 25) (ht : t < 25) :
    finalScore c t ≤ 99.9 := by
  unfold finalScore
  split
  · rename_i hcon; exfalso; simp [STEPS_PER_ATTEMPT] at hcon; omega
  · split
    · exact min_le_left _ _
    · rename_i hne hbon
      exact curvedScore_le_999 c t hc (le22_of_not_bonus hbon)

theorem finalScore_mono_cm (c₁ c₂ t : ℕ) (hc : c₁ ≤ c₂) :
    finalScore c₁ t ≤ finalScore c₂ t := by
  by_cases h1 : t = STEPS_PER_ATTEMPT
  · unfold finalScore; rw [if_pos h1, if_pos h1]
  · unfold finalScore
    rw [if_neg h1, if_neg h1]
    by_cases h2 : (STEPS_PER_ATTEMPT : ℝ) * 0.9 ≤ (t : ℝ)
    · rw [if_pos h2, if_pos h2]
      refine min_le_min (le_refl _) ?_
      linarith [curvedScore_mono c₁ c₂ t t hc (le_refl t)]
    · rw [if_neg h2, if_neg h2]
      exact curvedScore_mono c₁ c₂ t t hc (le_refl t)

theorem finalScore_mono_tm (c t₁ t₂ : ℕ) (hc : c ≤ 25) (ht : t₁ ≤ t₂) (ht2 : t₂ ≤ 25) :
    finalScore c t₁ ≤ finalScore c t₂ := by
  by_cases h2 : t₂ = STEPS_PER_ATTEMPT
  · have hr : finalScore c t₂ = 100 := by unfold finalScore; rw [if_pos h2]
    rw [hr]
    exact finalScore_le_100 c t₁ hc (ht.trans ht2)
  · have ht2' : t₂ < 25 := by simp [STEPS_PER_ATTEMPT] at h2; omega
    have ht1' : t₁ < 25 := lt_of_le_of_lt ht ht2'
    have h1 : ¬(t₁ = STEPS_PER_ATTEMPT) := by simp [STEPS_PER_ATTEMPT]; omega
    unfold finalScore
    rw [if_neg h1, if_neg h2]
    by_cases hb2 : (STEPS_PER_ATTEMPT : ℝ) * 0.9 ≤ (t₂ : ℝ)
    · rw [if_pos hb2]
      by_cases hb1 : (STEPS_PER_ATTEMPT : ℝ) * 0.9 ≤ (t₁ : ℝ)
      · rw [if_pos hb1]
        refine min_le_min (le_refl _) ?_
        have hcurve := curvedScore_mono c c t₁ t₂ (le_refl c) ht
        have hbon := bonusTerm_mono ht
        linarith
      · rw [if_neg hb1]
        refine le_min ?_ ?_
        · exact curvedScore_le_999 c t₁ hc (le22_of_not_bonus hb1)
        · have hcurve := curvedScore_mono c c t₁ t₂ (le_refl c) ht
          have hbon := bonusTerm_nonneg hb2
          linarith
    · have hb1 : ¬((STEPS_PER_ATTEMPT : ℝ) * 0.9 ≤ (t₁ : ℝ)) := by
        intro h
        apply hb2
        have : (t₁ : ℝ) ≤ (t₂ : ℝ) := by exact_mod_cast ht
        linarith
      rw [if_neg hb1, if_neg hb2]
      exact curvedScore_mono c c t₁ t₂ (le_refl c) ht

/-! ### Rounding lemmas -/

theorem jsRound_intCast (n : ℤ) : jsRound (n : ℝ) = n := by
  unfold jsRound
  rw [Int.floor_int_add]
  norm_num

theorem jsRound_mono {x y : ℝ} (h : x ≤ y) : jsRound x ≤ jsRound y :=
  Int.floor_le_floor (by linarith)

theorem jsRound_le_of_le {x : ℝ} {n : ℤ} (h : x ≤ (n : ℝ)) : jsRound x ≤ n := by
  calc jsRound x ≤ jsRound (n : ℝ) := jsRound_mono h
  _ = n := jsRound_intCast n

theorem jsRound_nonneg {x : ℝ} (h : 0 ≤ x) : 0 ≤ jsRound x := by
  have h0 : jsRound ((0 : ℤ) : ℝ) = 0 := jsRound_intCast 0
  rw [show ((0 : ℤ) : ℝ) = (0 : ℝ) by norm_num] at h0
  calc (0 : ℤ) = jsRound (0 : ℝ) := h0.symm
  _ ≤ jsRound x := jsRound_mono h

/-! ### Score lemmas -/

theorem scoreFrom_perfect (c : ℕ) : scoreFrom c STEPS_PER_ATTEMPT = 100 := by
  unfold scoreFrom finalScore
  rw [if_pos rfl]
  rw [show ((100 : ℝ) * 10) = ((1000 : ℤ) : ℝ) by norm_num, jsRound_intCast]
  norm_num

theorem scoreFrom_nonneg (c t : ℕ) : 0 ≤ scoreFrom c t := by
  unfold scoreFrom
  have h : (0 : ℝ) ≤ finalScore c t * 10 := by
    have := finalScore_nonneg c t
    linarith
  have h2 : (0 : ℤ) ≤ jsRound (finalScore c t * 10) := jsRound_nonneg h
  have h3 : (0 : ℚ) ≤ (jsRound (finalScore c t * 10) : ℚ) := by exact_mod_cast h2
  linarith

theorem scoreFrom_le_100 (c t : ℕ) (hc : c ≤ 25) (ht : t ≤ 25) : scoreFrom c t ≤ 100 := by
  unfold scoreFrom
  have h : finalScore c t * 10 ≤ ((1000 : ℤ) : ℝ) := by
    have := finalScore_le_100 c t hc ht
    push_cast
    linarith
  have h2 : jsRound (finalScore c t * 10) ≤ 1000 := jsRound_le_of_le h
  have h3 : (jsRound (finalScore c t * 10) : ℚ) ≤ 1000 := by exact_mod_cast h2
  linarith

theorem scoreFrom_le_999 (c t : ℕ) (hc : c ≤ 25) (ht : t < 25) : scoreFrom c t ≤ 99.9 := by
  unfold scoreFrom
  have h : finalScore c t * 10 ≤ ((999 : ℤ) : ℝ) := by
    have := finalScore_le_999 c t hc ht
    push_cast
    linarith
  have h2 : jsRound (finalScore c t * 10) ≤ 999 := jsRound_le_of_le h
  have h3 : (jsRound (finalScore c t * 10) : ℚ) ≤ 999 := by exact_mod_cast h2
  rw [show (99.9 : ℚ) = 999 / 10 by norm_num]
  linarith

theorem scoreFrom_mono_cm (c₁ c₂ t : ℕ) (hc : c₁ ≤ c₂) : scoreFrom c₁ t ≤ scoreFrom c₂ t := by
  unfold scoreFrom
  have h := finalScore_mono_cm c₁ c₂ t hc
  have h2 : jsRound (finalScore c₁ t * 10) ≤ jsRound (finalScore c₂ t * 10) :=
    jsRound_mono (by linarith)
  have h3 : (jsRound (finalScore c₁ t * 10) : ℚ) ≤ (jsRound (finalScore c₂ t * 10) : ℚ) := by
    exact_mod_cast h2
  linarith

theorem scoreFrom_mono_tm (c t₁ t₂ : ℕ) (hc : c ≤ 25) (ht : t₁ ≤ t₂) (ht2 : t₂ ≤ 25) :
    scoreFrom c t₁ ≤ scoreFrom c t₂ := by
  unfold scoreFrom
  have h := finalScore_mono_tm c t₁ t₂ hc ht ht2
  have h2 : jsRound (finalScore c t₁ * 10) ≤ jsRound (finalScore c t₂ * 10) :=
    jsRound_mono (by linarith)
  have h3 : (jsRound (finalScore c t₁ * 10) : ℚ) ≤ (jsRound (finalScore c t₂ * 10) : ℚ) := by
    exact_mod_cast h2
  linarith

theorem scoreFrom_zero : scoreFrom 0 0 = 0 := by
  have hb : baseScore 0 0 = 0 := by
    unfold baseScore
    norm_num
  have hfin : finalScore 0 0 = 0 := by
    unfold finalScore
    rw [if_neg (by simp [STEPS_PER_ATTEMPT]), if_neg (by rw [steps_cast_real]; norm_num)]
    unfold curvedScore
    rw [hb, Real.zero_rpow (ne_of_gt curve_exponent_pos)]
    norm_num
  unfold scoreFrom
  rw [hfin, show (0 : ℝ) * 10 = ((0 : ℤ) : ℝ) by norm_num, jsRound_intCast]
  norm_num

/-! ### Option comparison lemmas -/

theorem none_beq_some (y : ℕ) : ((none : Option ℕ) == some y) = false := rfl

theorem some_beq_some (x y : ℕ) : ((some x : Option ℕ) == some y) = (x == y) := rfl

/-! ### Counting lemmas over short lists -/

theorem tmAux_nil (n : ℕ) : ∀ s : List ℕ, n ≤ s.length → tmAux n ([] : List ℕ) s = 0 := by
  induction n with
  | zero => intro s _; rfl
  | succ m ih =>
    intro s h
    cases s with
    | nil => simp at h
    | cons y ys =>
      have hy : tmAux m ([] : List ℕ) ys = 0 := ih ys (by simpa using h)
      simp [tmAux, none_beq_some, hy]

theorem tmAux_overrun : ∀ (n : ℕ) (a s : List ℕ), a.length ≤ n → n ≤ s.length →
    tmAux n a s = tmAux a.length a s := by
  intro n
  induction n with
  | zero =>
    intro a s ha _
    have h0 : a.length = 0 := by omega
    rw [h0]
  | succ m ih =>
    intro a s ha hs
    cases a with
    | nil =>
      rw [tmAux_nil (m + 1) s hs]
      rfl
    | cons x xs =>
      cases s with
      | nil => simp at hs
      | cons y ys =>
        show (if (x :: xs).head? == (y :: ys).head? then 1 else 0) + tmAux m xs ys
          = tmAux (xs.length + 1) (x :: xs) (y :: ys)
        show _ = (if (x :: xs).head? == (y :: ys).head? then 1 else 0) + tmAux xs.length xs ys
        congr 1
        exact ih xs ys (by simpa using ha) (by simpa using hs)

theorem cmAux_le_length : ∀ (n : ℕ) (a s : List ℕ), n ≤ s.length → cmAux n a s ≤ a.length := by
  intro n
  induction n with
  | zero => intro a s _; simp [cmAux]
  | succ m ih =>
    intro a s hs
    cases s with
    | nil => simp at hs
    | cons y ys =>
      cases a with
      | nil => simp [cmAux, none_beq_some]
      | cons x xs =>
        have hrec := ih xs ys (by simpa using hs)
        show (if (x :: xs).head? == (y :: ys).head? then cmAux m xs ys + 1 else 0)
          ≤ xs.length + 1
        split
        · omega
        · omega

theorem cmAux_take : ∀ (n : ℕ) (a s : List ℕ), cmAux n a s = cmAux n (a.take n) s := by
  intro n
  induction n with
  | zero => intro a s; rfl
  | succ m ih =>
    intro a s
    cases a with
    | nil => rfl
    | cons x xs =>
      show (if (x :: xs).head? == s.head? then cmAux m xs s.tail + 1 else 0)
        = (if (x :: xs).head? == s.head? then cmAux m (xs.take m) s.tail + 1 else 0)
      rw [ih xs s.tail]

theorem tmAux_take : ∀ (n : ℕ) (a s : List ℕ), tmAux n a s = tmAux n (a.take n) s := by
  intro n
  induction n with
  | zero => intro a s; rfl
  | succ m ih =>
    intro a s
    cases a with
    | nil => rfl
    | cons x xs =>
      show (if (x :: xs).head? == s.head? then 1 else 0) + tmAux m xs s.tail
        = (if (x :: xs).head? == s.head? then 1 else 0) + tmAux m (xs.take m) s.tail
      rw [ih xs s.tail]

/-! ### Claim C4 -/

/-- C4: for length-25 attempts against a length-25 solution the score is
in `[0, 100]`; it is exactly 100 when all 25 positions match, and at most
99.9 (in particular never 100) when `totalMatches < 25`. -/
theorem claim4_score_range (a s : List ℕ) (ha : a.length = 25) (hs : s.length = 25) :
    0 ≤ evaluateAttempt a s ∧ evaluateAttempt a s ≤ 100 ∧
    (totalMatches a s = 25 → evaluateAttempt a s = 100) ∧
    (totalMatches a s < 25 → evaluateAttempt a s ≤ 99.9) := by
  refine ⟨scoreFrom_nonneg _ _,
    scoreFrom_le_100 _ _ (consecutiveMatches_le a s) (totalMatches_le a s), ?_, ?_⟩
  · intro h
    show scoreFrom (consecutiveMatches a s) (totalMatches a s) = 100
    rw [h]
    exact scoreFrom_perfect _
  · intro h
    exact scoreFrom_le_999 _ _ (consecutiveMatches_le a s) h

/-- Witness for C4: the attempt identical to an all-zero solution. -/
theorem claim4_score_range_witness :
    0 ≤ evaluateAttempt (List.replicate 25 0) (List.replicate 25 0) ∧
    evaluateAttempt (List.replicate 25 0) (List.replicate 25 0) ≤ 100 ∧
    (totalMatches (List.replicate 25 0) (List.replicate 25 0) = 25 →
      evaluateAttempt (List.replicate 25 0) (List.replicate 25 0) = 100) ∧
    (totalMatches (List.replicate 25 0) (List.replicate 25 0) < 25 →
      evaluateAttempt (List.replicate 25 0) (List.replicate 25 0) ≤ 99.9) :=
  claim4_score_range (List.replicate 25 0) (List.replicate 25 0) (by decide) (by decide)

/-! ### Claim C5 -/

/-- C5: the evaluation is monotone in either match count with the other
held fixed: against the same length-25 solution, an attempt with the
same total and at least the consecutive count of another, or the same
consecutive count and at least the total of another, scores at least as
much. -/
theorem claim5_monotonicity (a b s : List ℕ) (ha : a.length = 25) (hb : b.length = 25)
    (hs : s.length = 25)
    (h : (consecutiveMatches a s ≤ consecutiveMatches b s ∧
            totalMatches a s = totalMatches b s) ∨
         (totalMatches a s ≤ totalMatches b s ∧
            consecutiveMatches a s = consecutiveMatches b s)) :
    evaluateAttempt a s ≤ evaluateAttempt b s := by
  show scoreFrom (consecutiveMatches a s) (totalMatches a s) ≤
    scoreFrom (consecutiveMatches b s) (totalMatches b s)
  rcases h with ⟨hcm, htm⟩ | ⟨htm, hcm⟩
  · rw [htm]
    exact scoreFrom_mono_cm _ _ _ hcm
  · rw [hcm]
    exact scoreFrom_mono_tm _ _ _ (consecutiveMatches_le b s) htm (totalMatches_le b s)

/-- Witness for C5: both attempts match exactly one position of the
all-zero solution, the second consecutively from the start. -/
theorem claim5_monotonicity_witness :
    evaluateAttempt (9 :: 0 :: List.replicate 23 9) (List.replicate 25 0) ≤
      evaluateAttempt (0 :: 9 :: List.replicate 23 9) (List.replicate 25 0) :=
  claim5_monotonicity (9 :: 0 :: List.replicate 23 9) (0 :: 9 :: List.replicate 23 9)
    (List.replicate 25 0) (by decide) (by decide) (by decide)
    (Or.inl ⟨by decide, by decide⟩)

/-! ### Claim C10 -/

/-- C10 (implicit): the evaluation is total on attempts shorter than 25:
it raises no error, returns a score in `[0, 100]`, counts only positions
below the attempt's length as possible matches (`totalMatches` equals
the count over the attempt's own indices, and the consecutive count
cannot exceed the attempt's length), and the empty attempt scores 0. -/
theorem claim10_short_attempts (a s : List ℕ) (hs : s.length = 25) (ha : a.length < 25) :
    0 ≤ evaluateAttempt a s ∧ evaluateAttempt a s ≤ 100 ∧
    totalMatches a s = tmAux a.length a s ∧
    consecutiveMatches a s ≤ a.length ∧
    evaluateAttempt [] s = 0 := by
  have hslen : STEPS_PER_ATTEMPT ≤ s.length := by simp [STEPS_PER_ATTEMPT, hs]
  refine ⟨scoreFrom_nonneg _ _,
    scoreFrom_le_100 _ _ (consecutiveMatches_le a s) (totalMatches_le a s), ?_, ?_, ?_⟩
  · exact tmAux_overrun STEPS_PER_ATTEMPT a s (by simp [STEPS_PER_ATTEMPT]; omega) hslen
  · exact cmAux_le_length STEPS_PER_ATTEMPT a s hslen
  · have hcm : consecutiveMatches [] s = 0 :=
      Nat.le_zero.mp (cmAux_le_length STEPS_PER_ATTEMPT [] s hslen)
    have htm : totalMatches [] s = 0 := by
      have h := tmAux_overrun STEPS_PER_ATTEMPT [] s (by simp) hslen
      simpa using h
    show scoreFrom (consecutiveMatches [] s) (totalMatches [] s) = 0
    rw [hcm, htm]
    exact scoreFrom_zero

/-- Witness for C10: the empty attempt against an all-zero solution. -/
theorem claim10_short_attempts_witness :
    0 ≤ evaluateAttempt [] (List.replicate 25 0) ∧
    evaluateAttempt [] (List.replicate 25 0) ≤ 100 ∧
    totalMatches [] (List.replicate 25 0) = tmAux (List.length ([] : List ℕ)) [] (List.replicate 25 0) ∧
    consecutiveMatches [] (List.replicate 25 0) ≤ List.length ([] : List ℕ) ∧
    evaluateAttempt [] (List.replicate 25 0) = 0 :=
  claim10_short_attempts [] (List.replicate 25 0) (by decide) (by decide)

/-! ### Claim C3 -/

/-- C3 counterexample: a length-1 attempt is not rejected; it is scored
like the fully mismatching padded attempt, and produces the score 0. -/
theorem claim3_counterexample :
    evaluateAttempt [3] (List.replicate 25 0)
      = evaluateAttempt (List.replicate 25 3) (List.replicate 25 0) ∧
    evaluateAttempt [3] (List.replicate 25 0) = 0 := by
  have h1 : consecutiveMatches [3] (List.replicate 25 0) = 0 := by decide
  have h2 : totalMatches [3] (List.replicate 25 0) = 0 := by decide
  have h3 : consecutiveMatches (List.replicate 25 3) (List.replicate 25 0) = 0 := by decide
  have h4 : totalMatches (List.replicate 25 3) (List.replicate 25 0) = 0 := by decide
  constructor
  · show scoreFrom _ _ = scoreFrom _ _
    rw [h1, h2, h3, h4]
  · show scoreFrom _ _ = 0
    rw [h1, h2]
    exact scoreFrom_zero

/-- C3 (amended): `evaluateAttempt` performs no length validation: an
attempt whose length differs from 25 is scored anyway — entries past
position 24 are silently ignored (truncation to the first 25 moves), and
the result is an ordinary score in `[0, 100]`. -/
theorem claim3_amended (a s : List ℕ) (hne : a.length ≠ 25) :
    evaluateAttempt a s = evaluateAttempt (a.take STEPS_PER_ATTEMPT) s ∧
    0 ≤ evaluateAttempt a s ∧ evaluateAttempt a s ≤ 100 := by
  refine ⟨?_, scoreFrom_nonneg _ _,
    scoreFrom_le_100 _ _ (consecutiveMatches_le a s) (totalMatches_le a s)⟩
  show scoreFrom (consecutiveMatches a s) (totalMatches a s)
    = scoreFrom (consecutiveMatches (a.take STEPS_PER_ATTEMPT) s)
        (totalMatches (a.take STEPS_PER_ATTEMPT) s)
  unfold consecutiveMatches totalMatches
  rw [← cmAux_take STEPS_PER_ATTEMPT a s, ← tmAux_take STEPS_PER_ATTEMPT a s]

/-- Witness for C3 (amended): a length-26 attempt. -/
theorem claim3_amended_witness :
    evaluateAttempt (List.replicate 26 0) (List.replicate 25 0)
      = evaluateAttempt ((List.replicate 26 0).take STEPS_PER_ATTEMPT) (List.replicate 25 0) ∧
    0 ≤ evaluateAttempt (List.replicate 26 0) (List.replicate 25 0) ∧
    evaluateAttempt (List.replicate 26 0) (List.replicate 25 0) ≤ 100 :=
  claim3_amended (List.replicate 26 0) (List.replicate 25 0) (by decide)

/-! ### Claim C2 -/

theorem cm_eq_ref : ∀ (n : ℕ) (a s : List ℕ), a.length = n → s.length = n →
    cmAux n a s = refConsecutive a s := by
  intro n
  induction n with
  | zero =>
    intro a s ha hs
    have ha0 : a = [] := List.length_eq_zero.mp ha
    have hs0 : s = [] := List.length_eq_zero.mp hs
    subst ha0; subst hs0; rfl
  | succ m ih =>
    intro a s ha hs
    cases a with
    | nil => simp at ha
    | cons x xs =>
      cases s with
      | nil => simp at hs
      | cons y ys =>
        show (if (x :: xs).head? == (y :: ys).head? then cmAux m xs ys + 1 else 0)
          = refConsecutive (x :: xs) (y :: ys)
        rw [List.head?_cons, List.head?_cons, some_beq_some]
        show _ = if x = y then refConsecutive xs ys + 1 else 0
        by_cases hxy : x = y
        · rw [if_pos (beq_iff_eq.mpr hxy), if_pos hxy,
            ih xs ys (by simpa using ha) (by simpa using hs)]
        · rw [if_neg (by simpa using hxy), if_neg hxy]

theorem tm_eq_ref : ∀ (n : ℕ) (a s : List ℕ), a.length = n → s.length = n →
    tmAux n a s = refTotal a s := by
  intro n
  induction n with
  | zero =>
    intro a s ha hs
    have ha0 : a = [] := List.length_eq_zero.mp ha
    have hs0 : s = [] := List.length_eq_zero.mp hs
    subst ha0; subst hs0; rfl
  | succ m ih =>
    intro a s ha hs
    cases a with
    | nil => simp at ha
    | cons x xs =>
      cases s with
      | nil => simp at hs
      | cons y ys =>
        show (if (x :: xs).head? == (y :: ys).head? then 1 else 0) + tmAux m xs ys
          = refTotal (x :: xs) (y :: ys)
        rw [List.head?_cons, List.head?_cons, some_beq_some]
        have hrec := ih xs ys (by simpa using ha) (by simpa using hs)
        unfold refTotal
        unfold refTotal at hrec
        rw [List.zip_cons_cons, List.filter_cons]
        by_cases hxy : (x == y) = true
        · rw [if_pos hxy, if_pos hxy, List.length_cons]
          omega
        · rw [if_neg hxy, if_neg hxy]
          omega

/-- C2: for length-25 attempt and solution, the evaluation equals the
reference formula of the specification: prefix count and total count,
`baseScore = (cm/25)*0.7 + (tm/25)*0.3`, `curved = baseScore^3.5 * 100`,
then 100 on a perfect total, the capped near-perfect branch for
`tm ≥ 22.5`, otherwise the curved score, rounded to one decimal. -/
theorem claim2_eval_matches_formula (a s : List ℕ) (ha : a.length = 25) (hs : s.length = 25) :
    evaluateAttempt a s = refScore a s := by
  have hcm : consecutiveMatches a s = refConsecutive a s := cm_eq_ref 25 a s ha hs
  have htm : totalMatches a s = refTotal a s := tm_eq_ref 25 a s ha hs
  show scoreFrom (consecutiveMatches a s) (totalMatches a s) = refScore a s
  rw [hcm, htm]
  simp only [refScore]
  generalize refConsecutive a s = c
  generalize refTotal a s = t
  unfold scoreFrom jsRound finalScore curvedScore bonusTerm baseScore CURVE_EXPONENT
    STEPS_PER_ATTEMPT
  norm_num

/-- Witness for C2: the attempt identical to an all-zero solution. -/
theorem claim2_eval_matches_formula_witness :
    evaluateAttempt (List.replicate 25 0) (List.replicate 25 0)
      = refScore (List.replicate 25 0) (List.replicate 25 0) :=
  claim2_eval_matches_formula (List.replicate 25 0) (List.replicate 25 0)
    (by decide) (by decide)

/-! ### Claim C6 -/

theorem lbBump_names (nm : String) (sc : ℚ) :
    ∀ lb : List LBEntry, (lbBump lb nm sc).map LBEntry.name = lb.map LBEntry.name := by
  intro lb
  induction lb with
  | nil => rfl
  | cons e rest ih =>
    unfold lbBump
    split
    · simp
    · simp only [List.map_cons]
      rw [ih]

theorem lbBump_length (nm : String) (sc : ℚ) :
    ∀ lb : List LBEntry, (lbBump lb nm sc).length = lb.length := by
  intro lb
  induction lb with
  | nil => rfl
  | cons e rest ih =>
    unfold lbBump
    split
    · simp
    · simp only [List.length_cons]
      rw [ih]

theorem lbBump_mem (nm : String) (sc : ℚ) :
    ∀ lb : List LBEntry, (lb.map LBEntry.name).Nodup →
      ∀ e : LBEntry, e ∈ lb → e.name = nm →
      ({ name := nm, score := max e.score sc } : LBEntry) ∈ lbBump lb nm sc := by
  intro lb
  induction lb with
  | nil => intro _ e he _; exact absurd he (List.not_mem_nil e)
  | cons hd tl ih =>
    intro hnd e he hename
    have hnd0 : (hd.name :: tl.map LBEntry.name).Nodup := by
      rw [← List.map_cons]
      exact hnd
    have hnd1 := List.nodup_cons.mp hnd0
    unfold lbBump
    by_cases hhd : (hd.name == nm) = true
    · rw [if_pos hhd]
      have hhd' : hd.name = nm := beq_iff_eq.mp hhd
      rcases List.mem_cons.mp he with rfl | htl
      · have heq : ({ name := nm, score := max e.score sc } : LBEntry)
            = { name := e.name, score := max e.score sc } := by rw [hename]
        rw [heq]
        exact List.mem_cons_self _ _
      · exfalso
        have hmem : e.name ∈ tl.map LBEntry.name := List.mem_map_of_mem _ htl
        exact hnd1.1 (by rw [hhd', ← hename]; exact hmem)
    · rw [if_neg hhd]
      have hne : e ≠ hd := by
        intro h
        exact hhd (beq_iff_eq.mpr (by rw [← h, hename]))
      rcases List.mem_cons.mp he with rfl | htl
      · exact absurd rfl hne
      · exact List.mem_cons_of_mem _ (ih hnd1.2 e htl hename)

theorem lbApply_of_mem (lb : List LBEntry) (nm : String) (sc : ℚ) (e : LBEntry)
    (he : e ∈ lb) (hename : e.name = nm) : lbApply lb nm sc = lbBump lb nm sc := by
  cases hf : lb.find? (fun p => p.name == nm) with
  | some v => simp [lbApply, hf]
  | none =>
    exfalso
    have hno := List.find?_eq_none.mp hf e he
    simp only [] at hno
    exact hno (beq_iff_eq.mpr hename)

/-- C6: starting from a leaderboard with pairwise-distinct player names
and at most 100 entries, any submission yields a leaderboard with
pairwise-distinct names, at most 100 entries, sorted by score
descending; a submission not exceeding an existing player's stored score
keeps that player's entry unchanged, and a strictly higher submission
replaces that player's score by the new one. -/
theorem claim6_leaderboard (lb : List LBEntry) (nm : String) (sc : ℚ) (e : LBEntry)
    (hnd : (lb.map LBEntry.name).Nodup) (hlen : lb.length ≤ 100) :
    ((updateLeaderboard lb nm sc).map LBEntry.name).Nodup ∧
    (updateLeaderboard lb nm sc).length ≤ 100 ∧
    List.Sorted lbRel (updateLeaderboard lb nm sc) ∧
    (e ∈ lb → e.name = nm → sc ≤ e.score → e ∈ updateLeaderboard lb nm sc) ∧
    (e ∈ lb → e.name = nm → e.score < sc →
      ({ name := nm, score := sc } : LBEntry) ∈ updateLeaderboard lb nm sc) := by
  have happly_nd : ((lbApply lb nm sc).map LBEntry.name).Nodup := by
    unfold lbApply
    cases hf : lb.find? (fun p => p.name == nm) with
    | some v =>
      rw [lbBump_names]
      exact hnd
    | none =>
      have hnotin : nm ∉ lb.map LBEntry.name := by
        intro hmem
        obtain ⟨x, hx, hxe⟩ := List.mem_map.mp hmem
        have hno := List.find?_eq_none.mp hf x hx
        simp only [] at hno
        exact hno (beq_iff_eq.mpr hxe)
      simp [List.nodup_append, hnd, hnotin]
  have hperm := List.perm_insertionSort lbRel (lbApply lb nm sc)
  have hsorted := List.sorted_insertionSort lbRel (lbApply lb nm sc)
  refine ⟨?_, ?_, ?_, ?_, ?_⟩
  · have hn2 : (((lbApply lb nm sc).insertionSort lbRel).map LBEntry.name).Nodup :=
      ((hperm.map LBEntry.name).nodup_iff).mpr happly_nd
    exact List.Nodup.sublist ((List.take_sublist 100 _).map LBEntry.name) hn2
  · unfold updateLeaderboard
    rw [List.length_take]
    exact min_le_left _ _
  · exact List.Pairwise.sublist (List.take_sublist 100 _) hsorted
  · intro he hename hle
    have hbump := lbBump_mem nm sc lb hnd e he hename
    have heq : ({ name := nm, score := max e.score sc } : LBEntry) = e := by
      rw [max_eq_left hle, ← hename]
    rw [heq] at hbump
    have happly := lbApply_of_mem lb nm sc e he hename
    have hmem2 : e ∈ (lbApply lb nm sc).insertionSort lbRel := by
      rw [List.mem_insertionSort, happly]
      exact hbump
    have hlen2 : ((lbApply lb nm sc).insertionSort lbRel).length ≤ 100 := by
      rw [List.length_insertionSort, happly, lbBump_length]
      exact hlen
    unfold updateLeaderboard
    rw [List.take_of_length_le hlen2]
    exact hmem2
  · intro he hename hlt
    have hbump := lbBump_mem nm sc lb hnd e he hename
    have heq : ({ name := nm, score := max e.score sc } : LBEntry)
        = { name := nm, score := sc } := by
      rw [max_eq_right hlt.le]
    rw [heq] at hbump
    have happly := lbApply_of_mem lb nm sc e he hename
    have hmem2 : ({ name := nm, score := sc } : LBEntry)
        ∈ (lbApply lb nm sc).insertionSort lbRel := by
      rw [List.mem_insertionSort, happly]
      exact hbump
    have hlen2 : ((lbApply lb nm sc).insertionSort lbRel).length ≤ 100 := by
      rw [List.length_insertionSort, happly, lbBump_length]
      exact hlen
    unfold updateLeaderboard
    rw [List.take_of_length_le hlen2]
    exact hmem2

/-- Witness for C6: a two-entry leaderboard with a lower resubmission
for one of its players. -/
theorem claim6_leaderboard_witness :
    ((updateLeaderboard [⟨"bob", 50⟩, ⟨"alice", 30⟩] "alice" 10).map LBEntry.name).Nodup ∧
    (updateLeaderboard [⟨"bob", 50⟩, ⟨"alice", 30⟩] "alice" 10).length ≤ 100 ∧
    List.Sorted lbRel (updateLeaderboard [⟨"bob", 50⟩, ⟨"alice", 30⟩] "alice" 10) ∧
    ((⟨"alice", 30⟩ : LBEntry) ∈ [(⟨"bob", 50⟩ : LBEntry), ⟨"alice", 30⟩] →
      (⟨"alice", 30⟩ : LBEntry).name = "alice" → (10 : ℚ) ≤ (⟨"alice", 30⟩ : LBEntry).score →
      (⟨"alice", 30⟩ : LBEntry) ∈ updateLeaderboard [⟨"bob", 50⟩, ⟨"alice", 30⟩] "alice" 10) ∧
    ((⟨"alice", 30⟩ : LBEntry) ∈ [(⟨"bob", 50⟩ : LBEntry), ⟨"alice", 30⟩] →
      (⟨"alice", 30⟩ : LBEntry).name = "alice" → (⟨"alice", 30⟩ : LBEntry).score < 10 →
      ({ name := "alice", score := 10 } : LBEntry)
        ∈ updateLeaderboard [⟨"bob", 50⟩, ⟨"alice", 30⟩] "alice" 10) :=
  claim6_leaderboard [⟨"bob", 50⟩, ⟨"alice", 30⟩] "alice" 10 ⟨"alice", 30⟩
    (by decide) (by decide)

end BlindMaze
